import Mathlib

/-!
Shallow embedding of the Google-Maps-Business-Scraper repository
(`src/main.py`) in Lean 4, together with theorems settling the frozen
claims about its specification.

Python strings are modelled as `List Char` so that every operation is a
computable structural recursion that the kernel can evaluate.  Python's
`str` helpers (`strip`, `lower`, `split`, `replace`, `startswith`,
substring membership, `int()` parsing) are re-implemented below on
`List Char`, faithful to CPython semantics on the inputs the scraper
feeds them (ASCII selectors and typical scraped text); the one deliberate
approximation is that `lower()` and whitespace classification handle the
ASCII/Latin-1 ranges plus the specific Unicode spaces the source itself
manipulates (U+00A0 and U+202F), not the full Unicode tables.

Browser-DOM reads (`page.locator(...).inner_text()` and friends),
the `requests.get` fetch, the `re` regex matches and the BeautifulSoup
table parse are modelled as the *inputs* of the embedded functions: a
`PageData` record holds exactly the raw values the Python code reads
from the page, and an `Option HttpResponse` holds the outcome of the
HTTP fetch (with `none` standing for a raised/timed-out request).
-/

/-- Python string: sequence of characters. -/
abbrev Str := List Char

/-- The characters Python's default `str.strip()` removes, restricted to
the whitespace that can occur in the scraped text handled by `main.py`
(ASCII whitespace plus NBSP U+00A0, NNBSP U+202F and thin space U+2009). -/
def pyIsSpace (c : Char) : Bool :=
  c = ' ' || c = '\t' || c = '\n' || c = '\r' ||
  c = '\x0b' || c = '\x0c' || c = ' ' || c = ' ' || c = ' '

/-- Python `str.strip()`: drop leading and trailing whitespace. -/
def pyStrip (s : Str) : Str :=
  ((s.dropWhile pyIsSpace).reverse.dropWhile pyIsSpace).reverse

/-- ASCII lower-casing of one character, as `str.lower()` does on the
ASCII range (the only range the compared domain strings use). -/
def lowerChar (c : Char) : Char :=
  if 65 ≤ c.toNat ∧ c.toNat ≤ 90 then Char.ofNat (c.toNat + 32) else c

/-- Python `str.lower()` on the ASCII range. -/
def pyLower (s : Str) : Str := s.map lowerChar

/-- Python `str.startswith(pre)`. -/
def pyStartsWith : Str → Str → Bool
  | _, [] => true
  | [], _ :: _ => false
  | c :: s, p :: ps => c = p && pyStartsWith s ps

/-- Helper for substring search: does `needle` occur in any suffix? -/
def pyInAux (needle : Str) : Str → Bool
  | [] => false
  | c :: s => pyStartsWith (c :: s) needle || pyInAux needle s

/-- Python `needle in hay` on strings (substring containment). -/
def pyIn (needle hay : Str) : Bool :=
  needle = [] || pyInAux needle hay

/-- Python `str.split(sep)` for a one-character separator (the source
only ever splits on the single character `'⋅'`). -/
def pySplitChar (sep : Char) : Str → List Str
  | [] => [[]]
  | c :: s =>
    let rest := pySplitChar sep s
    if c = sep then [] :: rest
    else
      match rest with
      | [] => [[c]]
      | r :: rs => (c :: r) :: rs

/-- Python `str.replace(a, b)` for one-character patterns (the source
only ever replaces single characters: separators, parentheses, spaces). -/
def pyReplaceChar (a b : Char) (s : Str) : Str :=
  s.map fun c => if c = a then b else c

/-- Python `str.replace(a, '')` for a one-character pattern: removal. -/
def pyRemoveChar (a : Char) (s : Str) : Str :=
  s.filter fun c => !(c = a)

/-- Python `sep.join(xs)`. -/
def pyJoin (sep : Str) : List Str → Str
  | [] => []
  | [x] => x
  | x :: r :: rs => x ++ sep ++ pyJoin sep (r :: rs)

/-- Value of a digit string (helper for `int()`). -/
def digitsVal (s : Str) : Nat :=
  s.foldl (fun n c => n * 10 + (c.toNat - 48)) 0

/-- Python `int(s)`: strip whitespace, optional sign, one-or-more
digits; any other shape raises `ValueError`, modelled as `none`.
(The exotic `int` forms — underscores between digits — cannot occur in
the cleaned review-count text and are not modelled.) -/
def pyInt (s : Str) : Option Int :=
  let t := pyStrip s
  match t with
  | '-' :: ds => if ds ≠ [] ∧ ds.all Char.isDigit then some (-(digitsVal ds : Int)) else none
  | '+' :: ds => if ds ≠ [] ∧ ds.all Char.isDigit then some (digitsVal ds : Int) else none
  | ds => if ds ≠ [] ∧ ds.all Char.isDigit then some (digitsVal ds : Int) else none

/-- Does Python `float(s)` accept `s`?  Modelled for the shapes a
review average can take: optional sign, digits with at most one dot and
at least one digit.  (Exponent and inf/nan forms never occur in that
field and are not modelled.) -/
def pyFloatAccepts (s : Str) : Bool :=
  let t := pyStrip s
  let t := match t with
    | '+' :: r => r
    | '-' :: r => r
    | r => r
  t ≠ [] && t.all (fun c => c.isDigit || c = '.') &&
    (t.filter (fun c => c = '.')).length ≤ 1 && t.any Char.isDigit

/-- First-occurrence deduplication, keeping insertion order: the order
in which CPython code of the form `if x not in seen: seen.add(x); ...`
accumulates distinct elements. -/
def dedupFirstAux (seen : List Str) : List Str → List Str
  | [] => []
  | x :: t => if x ∈ seen then dedupFirstAux seen t else x :: dedupFirstAux (x :: seen) t

/-- Distinct elements of a list in first-occurrence order. -/
def dedupFirst (l : List Str) : List Str := dedupFirstAux [] l

/-- Lexicographic string comparison by code point — Python's `<=` on
`str`, which `sorted` uses. -/
def strLe : Str → Str → Bool
  | [], _ => true
  | _ :: _, [] => false
  | a :: as, b :: bs => if a = b then strLe as bs else decide (a.toNat < b.toNat)

/-- Insert into a `strLe`-sorted list (helper for `sorted`). -/
def insertSorted (x : Str) : List Str → List Str
  | [] => [x]
  | y :: t => if strLe x y then x :: y :: t else y :: insertSorted x t

/-- Python `sorted` on a list of strings (insertion sort; on the
duplicate-free lists it is applied to, any stable sort agrees). -/
def pySorted (l : List Str) : List Str := l.foldr insertSorted []

/-- Python `sorted(set(l))` as the source uses it: the distinct
elements of `l` in ascending order. -/
def pySortedSet (l : List Str) : List Str := pySorted (dedupFirst l)

/-- Python `', '.join(set(l))`: the distinct elements joined by a comma.
CPython's set iteration order is unspecified; first-occurrence order is
one admissible order and the claims only constrain the member set. -/
def pyJoinSet (l : List Str) : Str := pyJoin ", ".data (dedupFirst l)

/-- The `"No info available"` sentinel of `main.py`. -/
def noInfo : Str := "No info available".data

/-- The `"No website"` sentinel of `main.py`. -/
def noWebsite : Str := "No website".data

/-- The value of a numeric field of `Place`: Python leaves these fields
either at their dataclass default `None`, or assigns a parsed value, or
assigns the `"No info available"` sentinel string. -/
inductive NumField (α : Type) where
  | pynone : NumField α
  | val : α → NumField α
  | sentinel : NumField α
deriving DecidableEq, Repr

/-- The `Place` dataclass of `main.py` (lines 20–37), field for field.
`reviews_count` is `Optional[int]` and `reviews_average` is
`Optional[float]` in the source; the average's parsed value is carried
as its cleaned numeric text (the float's value itself plays no role in
any claim).  The dynamically added `worktime` attribute is *not* a
field of the dataclass and is therefore not a field here; the Field
Extractor returns it separately. -/
structure Place where
  name : Str := []
  maps_url : Str := []
  email : Str := []
  website : Str := []
  address : Str := []
  phone_number : Str := []
  reviews_count : NumField Int := .pynone
  reviews_average : NumField Str := .pynone
  place_type : Str := []
  introduction : Str := []
  social_media_urls : Str := []
  category : Str := []
  latitude : Str := []
  longitude : Str := []
  weekly_hours : Str := []
  tags : Str := []
deriving DecidableEq, Repr

/-- Outcome of the `requests.get` fetch in `extract_email_from_website`
(lines 53–65): HTTP status plus the e-mail pattern matches that
`re.findall` yields on the body. -/
structure HttpResponse where
  status : Nat
  emails : List Str
deriving DecidableEq, Repr

/-- The timeout (in seconds) passed to `requests.get` at line 58. -/
def requestTimeoutSeconds : Nat := 5

/-- `extract_email_from_website` (lines 53–65).  `fetch = none` models
a raised or timed-out `requests.get`; the `try/except` absorbs it. -/
def extract_email_from_website (website_url : Str) (fetch : Option HttpResponse) : Str :=
  if website_url = [] ∨ website_url = noWebsite ∨ website_url = noInfo then noInfo
  else
    match fetch with
    | none => noInfo
    | some resp =>
      if resp.status = 200 ∧ resp.emails ≠ [] then pyJoinSet resp.emails
      else noInfo

/-- The social-media domain list of `extract_place` (lines 118–120). -/
def social_media_domains_list : List Str :=
  ["facebook.com".data, "instagram.com".data, "linkedin.com".data,
   "twitter.com".data, "x.com".data, "youtube.com".data]

/-- Does some social-media domain occur in `url.lower()`?  This is the
`for domain_part in ...: if domain_part in url.lower()` test of
lines 123–128 and 148–151. -/
def isSocialUrl (url : Str) : Bool :=
  social_media_domains_list.any fun d => pyIn d (pyLower url)

/-- The detail-pane link scan of lines 140–153: each not-yet-seen href
is recorded, and appended to the social list when a social-media domain
occurs in its lower-cased text.  Net effect: dedup first-occurrence,
then filter. -/
def detailSocialLinks (links : List Str) : List Str :=
  (dedupFirst links).filter isSocialUrl

/-- The review-count cleaning of line 161: remove NBSP, NNBSP,
parentheses, commas and spaces. -/
def cleanCount (s : Str) : Str :=
  pyRemoveChar ' ' (pyRemoveChar ',' (pyRemoveChar ')' (pyRemoveChar '('
    (pyRemoveChar ' ' (pyRemoveChar ' ' s)))))

/-- The review-average cleaning of line 171: remove spaces, turn the
decimal comma into a dot. -/
def cleanAvg (s : Str) : Str :=
  pyReplaceChar ',' '.' (pyRemoveChar ' ' s)

/-- One pass of the `open ⋅ closes` scan (lines 184–191 and 205–212):
fold the split parts into the `(open_time, close_time)` pair. -/
def worktimeScan (parts : List Str) : Option Str × Option Str :=
  parts.foldl
    (fun oc part =>
      if pyStartsWith (pyLower part) "open".data then (some part, oc.2)
      else if pyStartsWith (pyLower part) "closes".data ∨ pyStartsWith (pyLower part) "close".data then
        (oc.1, some part)
      else if pyIn ":".data part then
        (oc.1, if oc.2.isSome then oc.2 else some ("Closes ".data ++ part))
      else oc)
    (none, none)

/-- The worktime computation applied to one raw `open ⋅ closes` string
(lines 183–199, repeated verbatim at 203–220 for the second selector). -/
def worktimeFromRaw (raw : Str) : Str :=
  let parts := ((pySplitChar '⋅' raw).map pyStrip).filter (· ≠ [])
  match worktimeScan parts with
  | (some ot, some ct) => ot ++ ", ".data ++ ct
  | (some ot, none) => ot
  | (none, some ct) => ct
  | (none, none) => pyRemoveChar ' ' raw

/-- The worktime value of lines 178–223: first selector if it yielded
text, else second selector, else the sentinel. -/
def worktimeOf (opensAtRaw opensAt2Raw : Str) : Str :=
  if opensAtRaw ≠ [] then worktimeFromRaw opensAtRaw
  else if opensAt2Raw ≠ [] then worktimeFromRaw opensAt2Raw
  else noInfo

/-- The weekly-hours table rendering of lines 239–258: the parsed
`(day, times)` rows joined as `day: times` with `"; "`, or the sentinel
when the table is absent or yields no rows. -/
def weeklyHoursFrom (rows : List (Str × Str)) : Str :=
  if rows = [] then noInfo
  else pyJoin "; ".data (rows.map fun r => r.1 ++ ": ".data ++ r.2)

/-- The tag collection of lines 260–269: strip each chip text, keep the
non-empty ones, first occurrence only. -/
def collectTags (texts : List Str) : List Str :=
  (texts.map pyStrip).foldl
    (fun acc tag => if tag ≠ [] ∧ tag ∉ acc then acc ++ [tag] else acc) []

/-- Everything `extract_place` reads from the loaded detail view, i.e.
the raw results of its selector queries (empty string = selector found
nothing, which is also what the `extract_text` helper returns when the
locator raises). -/
structure PageData where
  nameRaw : Str := []
  addressRaw : Str := []
  websiteRaw : Str := []
  phoneRaw : Str := []
  reviewsCountRaw : Str := []
  reviewsAvgRaw : Str := []
  opensAtRaw : Str := []
  opensAt2Raw : Str := []
  placeTypeRaw : Str := []
  introRaw : Str := []
  /-- First `/maps/place/` link: `none` = no such element (or the
  locator raised), `some none` = element with a `None` href,
  `some (some h)` = element with href `h`. -/
  linkHref : Option (Option Str) := none
  /-- `page.url`. -/
  pageUrl : Str := []
  /-- The `mailto:` targets collected at lines 102–106 (already with
  the `mailto:` prefix removed, as the list comprehension does). -/
  mailtoEmails : List Str := []
  /-- Outcome of the `requests.get` on the listed website. -/
  websiteFetch : Option HttpResponse := none
  /-- The hrefs of all `div[role="main"] a[href*="http"]` elements. -/
  detailLinks : List Str := []
  /-- The `@lat,lng,` regex match on `page.url` (groups 1 and 2), or
  `none` when the pattern does not occur. -/
  latLng : Option (Str × Str) := none
  /-- The `(day, times)` rows the BeautifulSoup pass reads from the
  hours table (rows with fewer than two cells contribute nothing and
  an absent table yields the empty list). -/
  hoursRows : List (Str × Str) := []
  /-- The inner texts of the tag/category chip elements. -/
  tagTexts : List Str := []
deriving Repr

/-- The `maps_url` logic of lines 86–98. -/
def mapsUrlOf (pd : PageData) : Str :=
  match pd.linkHref with
  | some (some h) =>
    if pyStartsWith h "http".data then h
    else if h ≠ [] then "https://www.google.com".data ++ h else noInfo
  | some none => noInfo
  | none => pd.pageUrl

/-- The e-mail logic of lines 100–114: prefer the `mailto:` links shown
on the Maps page, else the e-mail scraped from the listed website. -/
def emailOf (pd : PageData) : Str :=
  let email := if pd.mailtoEmails ≠ [] then pyJoinSet pd.mailtoEmails else noInfo
  let email_from_site := extract_email_from_website pd.websiteRaw pd.websiteFetch
  if email = noInfo ∧ email_from_site ≠ noInfo then email_from_site else email

/-- The `reviews_count` logic of lines 157–166.  When the raw text is
empty the sentinel is assigned; when it is non-empty the cleaned text
is fed to `int()`, and on a parse failure the `except` branch only logs
— the field keeps its dataclass default `None`. -/
def reviewsCountOf (raw : Str) : NumField Int :=
  if raw = [] then .sentinel
  else
    match pyInt (cleanCount raw) with
    | some n => .val n
    | none => .pynone

/-- The `reviews_average` logic of lines 167–176, same shape as the
count: sentinel on empty raw text, parsed value on success, and the
dataclass default `None` on a `float()` failure. -/
def reviewsAvgOf (raw : Str) : NumField Str :=
  if raw = [] then .sentinel
  else
    let t := cleanAvg raw
    if pyFloatAccepts t then .val t else .pynone

/-- The social/website separation of lines 115–130: a non-empty website
value containing a social-media domain is moved to the social list and
the website field becomes `"No website"`. -/
def websiteIsSocial (pd : PageData) : Bool :=
  pd.websiteRaw ≠ [] && isSocialUrl pd.websiteRaw

/-- The full social-media link list of lines 117–151: the moved website
value (if any) followed by the social links found in the detail pane. -/
def foundSocialLinks (pd : PageData) : List Str :=
  (if websiteIsSocial pd then [pd.websiteRaw] else []) ++ detailSocialLinks pd.detailLinks

/-- `extract_place` (lines 67–270), as a pure function of everything it
reads from the page.  The first component is the `Place` dataclass
value; the second is the dynamically added `worktime` attribute, which
is not a dataclass field and is therefore returned alongside. -/
def extract_place (pd : PageData) : Place × Str :=
  let place : Place :=
    { name := if pd.nameRaw ≠ [] then pd.nameRaw else noInfo
      maps_url := mapsUrlOf pd
      email := emailOf pd
      website :=
        if websiteIsSocial pd then noWebsite
        else if pd.websiteRaw ≠ [] then pd.websiteRaw else noInfo
      address := if pd.addressRaw ≠ [] then pd.addressRaw else noInfo
      phone_number := if pd.phoneRaw ≠ [] then pd.phoneRaw else noInfo
      reviews_count := reviewsCountOf pd.reviewsCountRaw
      reviews_average := reviewsAvgOf pd.reviewsAvgRaw
      place_type := if pd.placeTypeRaw ≠ [] then pd.placeTypeRaw else noInfo
      introduction :=
        if pd.introRaw ≠ [] ∧ pyStrip pd.introRaw ≠ [] then pd.introRaw else noInfo
      social_media_urls :=
        let j := pyJoin ", ".data (pySortedSet (foundSocialLinks pd))
        if j ≠ [] then j else noInfo
      category := []
      latitude :=
        match pd.latLng with
        | some lalo => if lalo.1 ≠ [] then lalo.1 else noInfo
        | none => noInfo
      longitude :=
        match pd.latLng with
        | some lalo => if lalo.2 ≠ [] then lalo.2 else noInfo
        | none => noInfo
      weekly_hours := weeklyHoursFrom pd.hoursRows
      tags :=
        let ts := collectTags pd.tagTexts
        if ts ≠ [] then pyJoin ", ".data ts else noInfo }
  (place, worktimeOf pd.opensAtRaw pd.opensAt2Raw)

/-- The deduplication key of line 330:
`(place.name.strip(), place.address.strip())`. -/
def keyOf (p : Place) : Str × Str := (pyStrip p.name, pyStrip p.address)

/-- The mutable listing-walk accumulator of `_scrape_places_with_browser`
within one scroll cycle: the `places` list and the `unique_keys` set
(the set is modelled as the list of keys in insertion order; only
membership is ever asked of it). -/
structure CycleSt where
  places : List Place
  keys : List (Str × Str)
deriving Repr

/-- One listing of a scroll cycle: `some p` when click/wait/extract
yielded the record `p`, `none` when any of them raised (the `except` of
lines 337–341 absorbs the exception and the loop continues). -/
abbrev ListingOutcome := Option Place

/-- The per-listing body of lines 329–334: append the record and its
key when the name is truthy and the key is new. -/
def stepListing (s : CycleSt) (o : ListingOutcome) : CycleSt :=
  match o with
  | none => s
  | some place =>
    if place.name ≠ [] ∧ keyOf place ∉ s.keys then
      ⟨s.places ++ [place], keyOf place :: s.keys⟩
    else s

/-- The `for idx, listing in enumerate(listings)` loop of lines 324–341
with its `break`: after each listing that did not raise, the
`len(places) >= total` break is checked (it sits inside the `try`, so a
listing that raised skips it). -/
def runCycle (total : Nat) (s : CycleSt) : List ListingOutcome → CycleSt
  | [] => s
  | none :: rest => runCycle total s rest
  | some p :: rest =>
    let s2 := stepListing s (some p)
    if total ≤ s2.places.length then s2 else runCycle total s2 rest

/-- The loop state of `_scrape_places_with_browser` (lines 302–316):
collected places, seen keys, the stall counter `scroll_attempts`, and
`last_unique_count`. -/
structure WalkSt where
  places : List Place
  keys : List (Str × Str)
  scroll_attempts : Nat
  last_unique_count : Nat
deriving Repr

/-- The initial walk state of lines 303–315. -/
def walkInit : WalkSt := ⟨[], [], 0, 0⟩

/-- `max_scroll_attempts` (line 314). -/
def max_scroll_attempts : Nat := 10

/-- Result of one `while True` iteration: keep looping or return the
collected list (both `break`s fall through to `return places`). -/
inductive StepRes where
  | cont : WalkSt → StepRes
  | done : List Place → StepRes
deriving Repr

/-- One iteration of the `while True` loop (lines 318–351): process the
currently rendered listings, break when the target is reached, else
update the stall counter and break after `max_scroll_attempts`
consecutive cycles without a new unique key. -/
def walkStep (total : Nat) (listings : List ListingOutcome) (s : WalkSt) : StepRes :=
  let c := runCycle total ⟨s.places, s.keys⟩ listings
  if total ≤ c.places.length then .done c.places
  else
    let attempts := if c.keys.length = s.last_unique_count then s.scroll_attempts + 1 else 0
    if max_scroll_attempts ≤ attempts then .done c.places
    else .cont ⟨c.places, c.keys, attempts, c.keys.length⟩

/-- The full walk of `_scrape_places_with_browser` over an infinite
feed of scroll cycles (`stream i` = the listing outcomes the `i`-th
scroll/enumerate cycle produces).  The `while True` loop is embedded
with explicit fuel: `none` means the fuel ran out before the loop
broke, so a `some` result at some fuel is exactly a terminating run. -/
def walkF (fuel : Nat) (stream : Nat → List ListingOutcome) (total : Nat)
    (s : WalkSt) (i : Nat) : Option (List Place) :=
  match fuel with
  | 0 => none
  | fuel + 1 =>
    match walkStep total (stream i) s with
    | .done r => some r
    | .cont s2 => walkF fuel stream total s2 (i + 1)

/-- What `scrape_places` (lines 272–300) did to its browser session:
the returned value or escaped exception, whether `browser.close()`
(line 288) ran, and whether the `with sync_playwright()` context was
exited (its `__exit__` stops the driver, which closes every browser it
launched — the guaranteed-on-exception teardown of the `with`
statement). -/
structure SessionTrace where
  outcome : Except Unit (List Place)
  closeCalled : Bool
  pwStopped : Bool
deriving Repr

/-- Trace semantics of `scrape_places` (lines 272–300) as a function of
whether a browser was handed in and of the walk's outcome (`.error` =
`_scrape_places_with_browser` raised).  With a handed-in browser
(lines 294–300) no close and no playwright teardown happen; with an own
browser, `browser.close()` runs only when the walk returned normally,
while the `with` block's teardown runs on both paths. -/
def scrape_places (browserGiven : Bool) (walk : Except Unit (List Place)) : SessionTrace :=
  if browserGiven then { outcome := walk, closeCalled := false, pwStopped := false }
  else
    match walk with
    | .ok r => { outcome := .ok r, closeCalled := true, pwStopped := true }
    | .error e => { outcome := .error e, closeCalled := false, pwStopped := true }

/-- The session was released on this exit path: either by the explicit
`browser.close()` or by the playwright context teardown. -/
def sessionReleased (t : SessionTrace) : Bool := t.closeCalled || t.pwStopped

/-- A `(category, location)` job of `main` (line 686). -/
abbrev Job := Str × Str

/-- The category tagging of lines 718–719: `place.category = cat` for
every scraped place of the job. -/
def tagCategory (cat : Str) (ps : List Place) : List Place :=
  ps.map fun p => { p with category := cat }

/-- `scrape_job` (lines 707–721): run the walk for the job and return
`(location, places-with-category)`; an exception anywhere inside (e.g.
a failed `chromium.launch`) escapes. -/
def scrape_job (run : Job → Except Unit (List Place)) (j : Job) :
    Except Unit (Str × List Place) :=
  match run j with
  | .error e => .error e
  | .ok ps => .ok (j.2, tagCategory j.1 ps)

/-- `list(executor.map(scrape_job, jobs))` (lines 722–723): results are
collected in job order, and the first exception a job raised is
re-raised by the iteration, discarding every other job's result. -/
def collectJobs (run : Job → Except Unit (List Place)) :
    List Job → Except Unit (List (Str × List Place))
  | [] => .ok []
  | j :: t =>
    match scrape_job run j with
    | .error e => .error e
    | .ok v =>
      match collectJobs run t with
      | .error e => .error e
      | .ok vs => .ok (v :: vs)

/-- Lookup in the insertion-ordered dict `location_results`. -/
def dictLookup (d : List (Str × List Place)) (loc : Str) : Option (List Place) :=
  match d with
  | [] => none
  | kv :: t => if kv.1 = loc then some kv.2 else dictLookup t loc

/-- The merge body of lines 724–727: `if loc not in location_results:
location_results[loc] = []` then `location_results[loc].extend(places)`
(a Python dict keeps insertion order and has unique keys). -/
def insLoc (d : List (Str × List Place)) (e : Str × List Place) :
    List (Str × List Place) :=
  match d with
  | [] => [e]
  | kv :: t => if kv.1 = e.1 then (kv.1, kv.2 ++ e.2) :: t else kv :: insLoc t e

/-- The whole merge loop of lines 724–727 over the collected results. -/
def mergeResults (rs : List (Str × List Place)) : List (Str × List Place) :=
  rs.foldl insLoc []

/-- The multi-job path of `main` (lines 704–727): collect every job's
result (an exception propagates) and merge into `location_results`. -/
def mainAggregate (jobs : List Job) (run : Job → Except Unit (List Place)) :
    Except Unit (List (Str × List Place)) :=
  match collectJobs run jobs with
  | .error e => .error e
  | .ok rs => .ok (mergeResults rs)

/-- The multi-job aggregation on the success path, where every job's
walk returns a list (no exception). -/
def mainAggregateOk (jobs : List Job) (run : Job → List Place) :
    List (Str × List Place) :=
  mergeResults (jobs.map fun j => (j.2, tagCategory j.1 (run j)))

/-- Concatenation of the values stored for `loc` among the collected
`(location, places)` results, in job order. -/
def collectLoc (rs : List (Str × List Place)) (loc : Str) : List Place :=
  match rs with
  | [] => []
  | kv :: t => if kv.1 = loc then kv.2 ++ collectLoc t loc else collectLoc t loc

/-- Example place for concrete runs of the walk. -/
def placeA : Place := { name := "Cafe Uno".data, address := "1 Main St".data }

/-- Second example place with the same dedup key as `placeA` but
different contents. -/
def placeB : Place :=
  { name := "Cafe Uno".data, address := "1 Main St".data, phone_number := "123".data }

/-- A feed whose every scroll cycle renders the same single listing. -/
def streamOne : Nat → List ListingOutcome := fun _ => [some placeA]

/-- A feed whose every scroll cycle renders the same two listings with
equal keys. -/
def streamDup : Nat → List ListingOutcome := fun _ => [some placeA, some placeB]

/-- A walk state nine stalls deep with no key ever collected. -/
def stalledSt : WalkSt := ⟨[], [], 9, 0⟩

/-- Example jobs: the first job's session creation fails, the second
succeeds. -/
def jobFailEx : Job := ("catA".data, "loc1".data)

/-- The sibling job that succeeds. -/
def jobOkEx : Job := ("catB".data, "loc2".data)

/-- The record the succeeding sibling job scrapes. -/
def placeJ : Place := { name := "Biz".data, address := "2 Oak Ave".data }

/-- Job runner forcing a session-creation failure for category `catA`
jobs and a one-record success for everything else. -/
def runEx : Job → Except Unit (List Place) :=
  fun j => if j.1 = "catA".data then .error () else .ok [placeJ]

/-- A detail view whose website field holds a social-media URL. -/
def pageFb : PageData := { websiteRaw := "https://facebook.com/x".data }

/-- A detail view whose review-count raw text is `"(1,234)"`. -/
def pageCount1234 : PageData := { reviewsCountRaw := "(1,234)".data }

/-- A detail view whose numeric raw texts are the unparsable `"N/A"`. -/
def pageCountNA : PageData :=
  { reviewsCountRaw := "N/A".data, reviewsAvgRaw := "N/A".data }

/-- Invariant of the per-cycle accumulator: every collected place's key
is recorded in `unique_keys`, and the collected keys are pairwise
distinct. -/
def cycleInv (s : CycleSt) : Prop :=
  (∀ p ∈ s.places, keyOf p ∈ s.keys) ∧ (s.places.map keyOf).Nodup

/-- Bookkeeping invariant of the walk loop: `places` and `unique_keys`
always have the same size (they are extended together at lines 332–333)
and `last_unique_count` holds the key count of the previous cycle. -/
def walkBal (s : WalkSt) : Prop :=
  s.keys.length = s.places.length ∧ s.last_unique_count = s.keys.length

/-- Termination measure of the `while True` loop: distance to the
target weighted against the stall budget. -/
def stallMeasure (total : Nat) (s : WalkSt) : Nat :=
  (total - s.places.length) * 11 + (10 - s.scroll_attempts)

theorem mem_insertSorted {a x : Str} : ∀ {l : List Str}, a ∈ insertSorted x l ↔ a = x ∨ a ∈ l
  | [] => by simp [insertSorted]
  | y :: t => by
    simp only [insertSorted]
    split
    · simp
    · simp [mem_insertSorted (l := t)]
      tauto

theorem mem_pySorted {a : Str} : ∀ {l : List Str}, a ∈ pySorted l ↔ a ∈ l
  | [] => by simp [pySorted]
  | y :: t => by
    have h : pySorted (y :: t) = insertSorted y (pySorted t) := rfl
    rw [h, mem_insertSorted, mem_pySorted (l := t)]
    simp

theorem mem_dedupFirstAux {a : Str} :
    ∀ {l seen : List Str}, a ∈ dedupFirstAux seen l ↔ a ∈ l ∧ a ∉ seen
  | [], seen => by simp [dedupFirstAux]
  | x :: t, seen => by
    simp only [dedupFirstAux]
    split
    · rw [mem_dedupFirstAux (l := t)]
      constructor
      · exact fun h => ⟨List.mem_cons_of_mem _ h.1, h.2⟩
      · rintro ⟨h1, h2⟩
        rcases List.mem_cons.mp h1 with h1 | h1
        · exact absurd (h1 ▸ ‹x ∈ seen›) h2
        · exact ⟨h1, h2⟩
    · rw [List.mem_cons, mem_dedupFirstAux (l := t)]
      simp only [List.mem_cons]
      constructor
      · rintro (h | ⟨h1, h2⟩)
        · exact ⟨Or.inl h, h ▸ ‹x ∉ seen›⟩
        · exact ⟨Or.inr h1, fun hc => h2 (Or.inr hc)⟩
      · rintro ⟨h1 | h1, h2⟩
        · exact Or.inl h1
        · by_cases hax : a = x
          · exact Or.inl hax
          · exact Or.inr ⟨h1, fun hc => hc.elim hax h2⟩

theorem mem_dedupFirst {a : Str} {l : List Str} : a ∈ dedupFirst l ↔ a ∈ l := by
  simp [dedupFirst, mem_dedupFirstAux]

theorem mem_pySortedSet {a : Str} {l : List Str} : a ∈ pySortedSet l ↔ a ∈ l := by
  simp [pySortedSet, mem_pySorted, mem_dedupFirst]

theorem pyJoin_ne_nil {x : Str} (hx : x ≠ []) (sep : Str) :
    ∀ {l : List Str}, x ∈ l → pyJoin sep l ≠ []
  | [], h => absurd h (List.not_mem_nil x)
  | [y], h => by
    simp only [List.mem_singleton] at h
    simpa [pyJoin, h] using hx
  | y :: r :: rs, h => by
    intro hc
    simp only [pyJoin] at hc
    have hparts := List.append_eq_nil.mp hc
    rcases List.mem_cons.mp h with h | h
    · exact (h ▸ hx) (List.append_eq_nil.mp hparts.1).1
    · exact pyJoin_ne_nil hx sep h hparts.2

/-- C5 — Social/website separation: whenever the extracted website
field value contains a known social-media domain, the returned record
has `website = "No website"`, its `social_media_urls` is the comma-join
of the sorted, deduplicated set of the detail-pane social links merged
with that moved value, and that set contains the moved value. -/
theorem website_social_separation (pd : PageData)
    (hne : pd.websiteRaw ≠ []) (hsoc : isSocialUrl pd.websiteRaw = true) :
    (extract_place pd).1.website = noWebsite ∧
    (extract_place pd).1.social_media_urls =
      pyJoin ", ".data (pySortedSet (pd.websiteRaw :: detailSocialLinks pd.detailLinks)) ∧
    pd.websiteRaw ∈ pySortedSet (pd.websiteRaw :: detailSocialLinks pd.detailLinks) := by
  have hws : websiteIsSocial pd = true := by
    simp [websiteIsSocial, hne, hsoc]
  have hfound : foundSocialLinks pd = pd.websiteRaw :: detailSocialLinks pd.detailLinks := by
    simp [foundSocialLinks, hws]
  have hmem : pd.websiteRaw ∈ pySortedSet (pd.websiteRaw :: detailSocialLinks pd.detailLinks) :=
    mem_pySortedSet.mpr (List.mem_cons_self _ _)
  refine ⟨?_, ?_, hmem⟩
  · simp [extract_place, hws]
  · simp only [extract_place, hfound]
    rw [if_pos (pyJoin_ne_nil hne ", ".data hmem)]

/-- C5 witness: the concrete detail view whose website field is
`https://facebook.com/x`. -/
theorem website_social_separation_witness :
    (pageFb.websiteRaw ≠ [] ∧ isSocialUrl pageFb.websiteRaw = true) ∧
    ((extract_place pageFb).1.website = noWebsite ∧
     (extract_place pageFb).1.social_media_urls =
       pyJoin ", ".data (pySortedSet (pageFb.websiteRaw :: detailSocialLinks pageFb.detailLinks)) ∧
     pageFb.websiteRaw ∈ pySortedSet (pageFb.websiteRaw :: detailSocialLinks pageFb.detailLinks)) :=
  ⟨⟨by decide, by decide⟩, website_social_separation pageFb (by decide) (by decide)⟩

/-- C3 — Sentinel totality fails on the parse-failure path: evaluating
the Field Extractor on a detail view whose numeric raw texts are the
non-empty but unparsable `"N/A"` leaves both `reviews_count` and
`reviews_average` at the Python dataclass default `None` (the `except`
branches at lines 163–164 and 173–174 only log), which is neither a
parsed value nor the `"No info available"` sentinel the claim
requires. -/
theorem reviews_fields_left_none_on_parse_failure :
    (extract_place pageCountNA).1.reviews_count = NumField.pynone ∧
    (extract_place pageCountNA).1.reviews_average = NumField.pynone ∧
    (NumField.pynone : NumField Int) ≠ NumField.sentinel ∧
    (NumField.pynone : NumField Str) ≠ NumField.sentinel := by
  refine ⟨?_, ?_, by decide, by decide⟩ <;> decide

/-- C6 — Numeric tolerance, evaluated at the claim's two inputs: raw
review-count text `"(1,234)"` parses to `1234` (the separator stripping
of line 161 works), but for the unparsable `"N/A"` the field is left at
the Python `None` default — not the `"No info available"` sentinel the
claim (and the spec's fall-back sentence) states — while no exception
escapes. -/
theorem reviews_count_parse_evaluation :
    (extract_place pageCount1234).1.reviews_count = NumField.val 1234 ∧
    (extract_place pageCountNA).1.reviews_count = NumField.pynone ∧
    NumField.pynone ≠ (NumField.sentinel : NumField Int) := by
  refine ⟨?_, ?_, by decide⟩ <;> decide

/-- C7 — Session release: when `scrape_places` launches its own
browser, the session is released on every exit path — by the explicit
`browser.close()` of line 288 on every normal return (success and
exhausted feed are both normal returns of the walk), and by the
`with sync_playwright()` teardown when `_scrape_places_with_browser`
raises; when a browser is handed in, `scrape_places` neither closes it
nor tears anything down, and in all cases the walk's outcome (value or
exception) is passed through unchanged. -/
theorem scrape_places_session_release (walk : Except Unit (List Place)) :
    sessionReleased (scrape_places false walk) = true ∧
    (∀ r, (scrape_places false (Except.ok r)).closeCalled = true) ∧
    (∀ e, (scrape_places false (Except.error e)).closeCalled = false ∧
      (scrape_places false (Except.error e)).pwStopped = true) ∧
    (scrape_places true walk).closeCalled = false ∧
    (scrape_places true walk).pwStopped = false ∧
    (scrape_places true walk).outcome = walk ∧
    (scrape_places false walk).outcome = walk := by
  cases walk <;> simp [scrape_places, sessionReleased]

/-- C8 — Email fetch absorption: a raised/timed-out GET, a non-200
status, and an empty match set each yield the `"No info available"`
sentinel instead of an exception; on a 200 response with matches the
result is the deduplicated matches joined by commas; and the GET
carries the 5-second timeout. -/
theorem email_fetch_absorbed (url : Str) (resp : HttpResponse) :
    (extract_email_from_website url none = noInfo) ∧
    (resp.status ≠ 200 → extract_email_from_website url (some resp) = noInfo) ∧
    (resp.emails = [] → extract_email_from_website url (some resp) = noInfo) ∧
    (url ≠ [] → url ≠ noWebsite → url ≠ noInfo → resp.status = 200 → resp.emails ≠ [] →
      extract_email_from_website url (some resp) = pyJoin ", ".data (dedupFirst resp.emails)) ∧
    requestTimeoutSeconds = 5 := by
  refine ⟨?_, ?_, ?_, ?_, rfl⟩
  · unfold extract_email_from_website
    split <;> rfl
  · intro h
    simp [extract_email_from_website, h]
  · intro h
    simp [extract_email_from_website, h]
  · intro h1 h2 h3 h4 h5
    simp [extract_email_from_website, h1, h2, h3, h4, h5, pyJoinSet]

/-- C8 witness: the theorem applied at concrete fetch outcomes — a
failed GET, a 404, an empty match set, and a successful fetch with a
duplicated match. -/
theorem email_fetch_absorbed_witness :
    (extract_email_from_website "http://example.com".data none = noInfo) ∧
    ((404 : Nat) ≠ 200 ∧
      extract_email_from_website "http://example.com".data
        (some ⟨404, ["a@b.cd".data]⟩) = noInfo) ∧
    ((["a@b.cd".data, "a@b.cd".data] : List Str) ≠ [] ∧
      extract_email_from_website "http://example.com".data
        (some ⟨200, ["a@b.cd".data, "a@b.cd".data]⟩) =
        pyJoin ", ".data (dedupFirst ["a@b.cd".data, "a@b.cd".data])) ∧
    (extract_email_from_website "http://example.com".data (some ⟨200, []⟩) = noInfo) :=
  ⟨(email_fetch_absorbed "http://example.com".data ⟨404, ["a@b.cd".data]⟩).1,
   ⟨by decide,
    (email_fetch_absorbed "http://example.com".data ⟨404, ["a@b.cd".data]⟩).2.1 (by decide)⟩,
   ⟨by decide,
    (email_fetch_absorbed "http://example.com".data
      ⟨200, ["a@b.cd".data, "a@b.cd".data]⟩).2.2.2.1
      (by decide) (by decide) (by decide) rfl (by decide)⟩,
   (email_fetch_absorbed "http://example.com".data ⟨200, []⟩).2.2.1 rfl⟩

theorem stepListing_len_le (s : CycleSt) (o : ListingOutcome) :
    (stepListing s o).places.length ≤ s.places.length + 1 := by
  cases o with
  | none => simp [stepListing]
  | some p =>
    simp only [stepListing]
    split <;> simp

theorem stepListing_bal (s : CycleSt) (o : ListingOutcome)
    (h : s.keys.length = s.places.length) :
    (stepListing s o).keys.length = (stepListing s o).places.length := by
  cases o with
  | none => exact h
  | some p =>
    simp only [stepListing]
    split <;> simp [h]

theorem stepListing_keys_mono (s : CycleSt) (o : ListingOutcome) :
    s.keys.length ≤ (stepListing s o).keys.length := by
  cases o with
  | none => exact le_refl _
  | some p =>
    simp only [stepListing]
    split <;> simp

theorem runCycle_len_le (total : Nat) : ∀ l (s : CycleSt),
    (runCycle total s l).places.length ≤ max total (s.places.length + 1)
  | [], s => by simp [runCycle]
  | none :: rest, s => by
    simpa [runCycle] using runCycle_len_le total rest s
  | some p :: rest, s => by
    simp only [runCycle]
    split
    · have := stepListing_len_le s (some p)
      omega
    · rename_i hc
      have hrec := runCycle_len_le total rest (stepListing s (some p))
      have hstep := stepListing_len_le s (some p)
      omega

theorem runCycle_bal (total : Nat) : ∀ l (s : CycleSt),
    s.keys.length = s.places.length →
    (runCycle total s l).keys.length = (runCycle total s l).places.length
  | [], _, h => h
  | none :: rest, s, h => runCycle_bal total rest s h
  | some p :: rest, s, h => by
    simp only [runCycle]
    split
    · exact stepListing_bal s (some p) h
    · exact runCycle_bal total rest _ (stepListing_bal s (some p) h)

theorem runCycle_keys_mono (total : Nat) : ∀ l (s : CycleSt),
    s.keys.length ≤ (runCycle total s l).keys.length
  | [], _ => le_refl _
  | none :: rest, s => runCycle_keys_mono total rest s
  | some p :: rest, s => by
    simp only [runCycle]
    split
    · exact stepListing_keys_mono s (some p)
    · exact le_trans (stepListing_keys_mono s (some p)) (runCycle_keys_mono total rest _)

theorem stepListing_cycleInv (s : CycleSt) (o : ListingOutcome) (h : cycleInv s) :
    cycleInv (stepListing s o) := by
  cases o with
  | none => exact h
  | some p =>
    simp only [stepListing]
    split
    · rename_i hcond
      obtain ⟨h1, h2⟩ := h
      constructor
      · intro q hq
        rcases List.mem_append.mp hq with hq | hq
        · exact List.mem_cons_of_mem _ (h1 q hq)
        · rw [List.mem_singleton] at hq
          subst hq
          exact List.mem_cons_self _ _
      · rw [List.map_append, List.nodup_append]
        refine ⟨h2, List.nodup_singleton _, ?_⟩
        intro x hx hmem
        rw [List.map_cons, List.map_nil, List.mem_singleton] at hmem
        subst hmem
        obtain ⟨q, hq, hqk⟩ := List.mem_map.mp hx
        exact hcond.2 (hqk ▸ h1 q hq)
    · exact h

theorem runCycle_cycleInv (total : Nat) : ∀ l (s : CycleSt),
    cycleInv s → cycleInv (runCycle total s l)
  | [], _, h => h
  | none :: rest, s, h => runCycle_cycleInv total rest s h
  | some p :: rest, s, h => by
    simp only [runCycle]
    split
    · exact stepListing_cycleInv s (some p) h
    · exact runCycle_cycleInv total rest _ (stepListing_cycleInv s (some p) h)

theorem walkStep_done {total : Nat} {listings : List ListingOutcome} {s : WalkSt}
    {r : List Place} (h : walkStep total listings s = .done r) :
    r = (runCycle total ⟨s.places, s.keys⟩ listings).places := by
  simp only [walkStep, max_scroll_attempts] at h
  by_cases h1 : total ≤ (runCycle total ⟨s.places, s.keys⟩ listings).places.length
  · rw [if_pos h1] at h
    cases h
    rfl
  · rw [if_neg h1] at h
    by_cases h2 : (runCycle total ⟨s.places, s.keys⟩ listings).keys.length =
        s.last_unique_count
    · rw [if_pos h2] at h
      by_cases h3 : 10 ≤ s.scroll_attempts + 1
      · rw [if_pos h3] at h
        cases h
        rfl
      · rw [if_neg h3] at h
        exact StepRes.noConfusion h
    · rw [if_neg h2, if_neg (by omega : ¬ (10 ≤ 0))] at h
      exact StepRes.noConfusion h

theorem walkStep_cont {total : Nat} {listings : List ListingOutcome} {s s2 : WalkSt}
    (h : walkStep total listings s = .cont s2) :
    s2 = ⟨(runCycle total ⟨s.places, s.keys⟩ listings).places,
          (runCycle total ⟨s.places, s.keys⟩ listings).keys,
          (if (runCycle total ⟨s.places, s.keys⟩ listings).keys.length = s.last_unique_count
             then s.scroll_attempts + 1 else 0),
          (runCycle total ⟨s.places, s.keys⟩ listings).keys.length⟩ ∧
    (runCycle total ⟨s.places, s.keys⟩ listings).places.length < total ∧
    (if (runCycle total ⟨s.places, s.keys⟩ listings).keys.length = s.last_unique_count
       then s.scroll_attempts + 1 else 0) < 10 := by
  simp only [walkStep, max_scroll_attempts] at h
  by_cases h1 : total ≤ (runCycle total ⟨s.places, s.keys⟩ listings).places.length
  · rw [if_pos h1] at h
    exact StepRes.noConfusion h
  · rw [if_neg h1] at h
    by_cases h2 : (runCycle total ⟨s.places, s.keys⟩ listings).keys.length =
        s.last_unique_count
    · rw [if_pos h2] at h
      by_cases h3 : 10 ≤ s.scroll_attempts + 1
      · rw [if_pos h3] at h
        exact StepRes.noConfusion h
      · rw [if_neg h3] at h
        cases h
        rw [if_pos h2]
        exact ⟨rfl, by omega, by omega⟩
    · rw [if_neg h2, if_neg (by omega : ¬ (10 ≤ 0))] at h
      cases h
      rw [if_neg h2]
      exact ⟨rfl, by omega, by omega⟩

theorem walkF_len (stream : Nat → List ListingOutcome) (total : Nat) :
    ∀ fuel (s : WalkSt) i r, walkF fuel stream total s i = some r →
      r.length ≤ max total (s.places.length + 1) := by
  intro fuel
  induction fuel with
  | zero => intro s i r h; simp [walkF] at h
  | succ fuel ih =>
    intro s i r h
    simp only [walkF] at h
    cases hws : walkStep total (stream i) s with
    | done r' =>
      rw [hws] at h
      injection h with h
      subst h
      have hr := walkStep_done hws
      have hb := runCycle_len_le total (stream i) ⟨s.places, s.keys⟩
      rw [hr]
      exact hb
    | cont s2 =>
      rw [hws] at h
      have hb := ih s2 (i + 1) r h
      obtain ⟨hs2, hlt, -⟩ := walkStep_cont hws
      have hlen : s2.places.length < total := by rw [hs2]; exact hlt
      omega

theorem walkF_some (stream : Nat → List ListingOutcome) (total : Nat) :
    ∀ fuel (s : WalkSt) i, walkBal s → stallMeasure total s < fuel →
      ∃ r, walkF fuel stream total s i = some r := by
  intro fuel
  induction fuel with
  | zero => intro s i _ hm; omega
  | succ fuel ih =>
    intro s i hbal hm
    cases hws : walkStep total (stream i) s with
    | done r => exact ⟨r, by simp [walkF, hws]⟩
    | cont s2 =>
      obtain ⟨hb1, hb2⟩ := hbal
      obtain ⟨hs2, hlt, hatt⟩ := walkStep_cont hws
      have hcb : (runCycle total ⟨s.places, s.keys⟩ (stream i)).keys.length =
          (runCycle total ⟨s.places, s.keys⟩ (stream i)).places.length :=
        runCycle_bal total (stream i) ⟨s.places, s.keys⟩ hb1
      have hkm : s.keys.length ≤
          (runCycle total ⟨s.places, s.keys⟩ (stream i)).keys.length :=
        runCycle_keys_mono total (stream i) ⟨s.places, s.keys⟩
      have hbal2 : walkBal s2 := by
        rw [hs2]
        exact ⟨hcb, rfl⟩
      have hm2 : stallMeasure total s2 < fuel := by
        have hms : stallMeasure total s =
            (total - s.places.length) * 11 + (10 - s.scroll_attempts) := rfl
        have hms2 : stallMeasure total s2 =
            (total - (runCycle total ⟨s.places, s.keys⟩ (stream i)).places.length) * 11 +
              (10 - s2.scroll_attempts) := by
          rw [hs2]
          rfl
        by_cases hcond :
            (runCycle total ⟨s.places, s.keys⟩ (stream i)).keys.length = s.last_unique_count
        · have hsc : s2.scroll_attempts = s.scroll_attempts + 1 := by
            rw [hs2]
            simp [hcond]
          rw [if_pos hcond] at hatt
          have hpeq : (runCycle total ⟨s.places, s.keys⟩ (stream i)).places.length =
              s.places.length := by
            rw [← hcb, hcond, hb2, hb1]
          omega
        · have hsc : s2.scroll_attempts = 0 := by
            rw [hs2]
            simp [hcond]
          have hkgt : s.keys.length <
              (runCycle total ⟨s.places, s.keys⟩ (stream i)).keys.length := by
            rw [hb2] at hcond
            omega
          omega
      obtain ⟨r, hr⟩ := ih s2 (i + 1) hbal2 hm2
      exact ⟨r, by simp [walkF, hws, hr]⟩

theorem walkF_nodup (stream : Nat → List ListingOutcome) (total : Nat) :
    ∀ fuel (s : WalkSt) i r, cycleInv ⟨s.places, s.keys⟩ →
      walkF fuel stream total s i = some r → (r.map keyOf).Nodup := by
  intro fuel
  induction fuel with
  | zero => intro s i r _ h; simp [walkF] at h
  | succ fuel ih =>
    intro s i r hinv h
    simp only [walkF] at h
    cases hws : walkStep total (stream i) s with
    | done r' =>
      rw [hws] at h
      injection h with h
      subst h
      rw [walkStep_done hws]
      exact (runCycle_cycleInv total (stream i) ⟨s.places, s.keys⟩ hinv).2
    | cont s2 =>
      rw [hws] at h
      obtain ⟨hs2, -, -⟩ := walkStep_cont hws
      refine ih s2 (i + 1) r ?_ h
      rw [hs2]
      exact runCycle_cycleInv total (stream i) ⟨s.places, s.keys⟩ hinv

/-- C1 — Deduplication: any terminating run of the Listing Walker
returns a list in which no two records share the (trimmed name, trimmed
address) key, and a listing whose extraction yields an already-seen key
leaves the accumulator unchanged — the record kept for a key is the one
from the first extraction that produced it. -/
theorem walk_output_dedup (stream : Nat → List ListingOutcome) (total fuel : Nat)
    (r : List Place) (h : walkF fuel stream total walkInit 0 = some r) :
    (r.map keyOf).Nodup ∧
    ∀ s p, keyOf p ∈ s.keys → stepListing s (some p) = s := by
  constructor
  · refine walkF_nodup stream total fuel walkInit 0 r ?_ h
    exact ⟨fun p hp => absurd hp (List.not_mem_nil p), List.nodup_nil⟩
  · intro s p hk
    simp only [stepListing]
    rw [if_neg]
    simp [hk]

/-- C1 witness: a concrete feed that renders the same two listings with
equal keys in every cycle terminates with a single record. -/
theorem walk_output_dedup_witness :
    (walkF 12 streamDup 5 walkInit 0 = some [placeA]) ∧
    ((([placeA]).map keyOf).Nodup ∧
      ∀ s p, keyOf p ∈ s.keys → stepListing s (some p) = s) :=
  ⟨by decide, walk_output_dedup streamDup 5 12 [placeA] (by decide)⟩

/-- C2 counterexample: with target count `0` and a feed whose first
cycle renders one extractable listing, the walk returns one record —
the `len(places) >= total` break of line 335 runs only after the append
of line 333, so the returned list's length exceeds the target,
refuting "the returned list's length never exceeds the target" at this
input. -/
theorem walk_exceeds_target_zero :
    walkF 11 streamOne 0 walkInit 0 = some [placeA] ∧ ¬ (([placeA]).length ≤ 0) :=
  ⟨by decide, by decide⟩

/-- C2 (amended) — Termination: for every feed and target count the
walk terminates within `11 * total + 11` scroll cycles; the returned
list's length never exceeds `max total 1` (for a target of at least one
it never exceeds the target; for target `0` a single record may be
returned, as the counterexample shows); and a cycle that yields no new
unique key while the stall counter already stands at nine makes the
walk terminate as a normal (non-error) result. -/
theorem walk_terminates_and_bounded (stream : Nat → List ListingOutcome) (total : Nat) :
    (∃ r, walkF (11 * total + 11) stream total walkInit 0 = some r ∧
      r.length ≤ max total 1) ∧
    (∀ listings s, s.scroll_attempts = 9 →
      (runCycle total ⟨s.places, s.keys⟩ listings).keys.length = s.last_unique_count →
      ∃ r, walkStep total listings s = .done r) := by
  constructor
  · have hm : stallMeasure total walkInit < 11 * total + 11 := by
      simp only [stallMeasure, walkInit]
      omega
    obtain ⟨r, hr⟩ := walkF_some stream total (11 * total + 11) walkInit 0 ⟨rfl, rfl⟩ hm
    refine ⟨r, hr, ?_⟩
    have := walkF_len stream total (11 * total + 11) walkInit 0 r hr
    simpa [walkInit] using this
  · intro listings s h9 hkeys
    simp only [walkStep, max_scroll_attempts]
    by_cases h1 : total ≤ (runCycle total ⟨s.places, s.keys⟩ listings).places.length
    · rw [if_pos h1]
      exact ⟨_, rfl⟩
    · rw [if_neg h1, if_pos hkeys, h9, if_pos (by omega : (10 : Nat) ≤ 9 + 1)]
      exact ⟨_, rfl⟩

/-- C2 witness: the amended theorem applied at a concrete feed with
target `3`, and the stall clause applied at a stalled state nine
attempts deep with an empty cycle. -/
theorem walk_terminates_and_bounded_witness :
    (∃ r, walkF (11 * 3 + 11) streamOne 3 walkInit 0 = some r ∧ r.length ≤ max 3 1) ∧
    (∃ r, walkStep 3 [] stalledSt = .done r) :=
  ⟨(walk_terminates_and_bounded streamOne 3).1,
   (walk_terminates_and_bounded streamOne 3).2 [] stalledSt rfl (by decide)⟩

theorem collectJobs_error (run : Job → Except Unit (List Place)) :
    ∀ jobs j, j ∈ jobs → run j = .error () → collectJobs run jobs = .error ()
  | [], j, hj, _ => absurd hj (List.not_mem_nil j)
  | a :: t, j, hj, hrun => by
    rcases List.mem_cons.mp hj with h | h
    · subst h
      simp only [collectJobs, scrape_job, hrun]
    · simp only [collectJobs, scrape_job]
      cases hra : run a with
      | error e => cases e; rfl
      | ok v => rw [collectJobs_error run t j h hrun]

theorem collectJobs_ok (run : Job → Except Unit (List Place)) :
    ∀ jobs, (∀ j ∈ jobs, ∃ ps, run j = .ok ps) →
      ∃ rs, collectJobs run jobs = .ok rs
  | [], _ => ⟨[], rfl⟩
  | a :: t, h => by
    obtain ⟨ps, hps⟩ := h a (List.mem_cons_self a t)
    obtain ⟨rs, hrs⟩ := collectJobs_ok run t (fun j hj => h j (List.mem_cons_of_mem a hj))
    exact ⟨(a.2, tagCategory a.1 ps) :: rs, by simp only [collectJobs, scrape_job, hps, hrs]⟩

/-- C4 counterexample: with two concurrent jobs where the first job's
session creation raises, `list(executor.map(scrape_job, jobs))`
re-raises that exception, so the orchestrator produces no merged
mapping at all — the succeeding sibling's records are not delivered and
the failed job does not contribute an empty list, refuting the claimed
per-job isolation at this concrete input. -/
theorem job_failure_not_isolated :
    mainAggregate [jobFailEx, jobOkEx] runEx = Except.error () ∧
    ¬ (mainAggregate [jobFailEx, jobOkEx] runEx =
        Except.ok [("loc1".data, []), ("loc2".data, tagCategory "catB".data [placeJ])]) := by
  constructor
  · rfl
  · intro h
    exact Except.noConfusion
      (show (Except.error () : Except Unit (List (Str × List Place))) = _ from h)

/-- C4 (amended) — Job failure propagation: an exception escaping any
one job propagates out of the orchestrator's result collection, which
then yields the exception and no merged mapping (sibling results are
discarded); only when every job returns normally does the orchestrator
produce the merged result. -/
theorem job_failure_propagates (jobs : List Job) (run : Job → Except Unit (List Place)) :
    ((∃ j ∈ jobs, run j = Except.error ()) → mainAggregate jobs run = Except.error ()) ∧
    ((∀ j ∈ jobs, ∃ ps, run j = Except.ok ps) → ∃ m, mainAggregate jobs run = Except.ok m) := by
  constructor
  · rintro ⟨j, hj, hrun⟩
    rw [mainAggregate, collectJobs_error run jobs j hj hrun]
  · intro h
    obtain ⟨rs, hrs⟩ := collectJobs_ok run jobs h
    exact ⟨mergeResults rs, by rw [mainAggregate, hrs]⟩

/-- C4 witness: the amended theorem applied to the concrete failing
pair of jobs and to the all-success singleton job list. -/
theorem job_failure_propagates_witness :
    (mainAggregate [jobFailEx, jobOkEx] runEx = Except.error ()) ∧
    (∃ m, mainAggregate [jobOkEx] runEx = Except.ok m) :=
  ⟨(job_failure_propagates [jobFailEx, jobOkEx] runEx).1
      ⟨jobFailEx, List.mem_cons_self _ _, rfl⟩,
   (job_failure_propagates [jobOkEx] runEx).2 (by
     intro j hj
     rw [List.mem_singleton] at hj
     subst hj
     exact ⟨[placeJ], rfl⟩)⟩

theorem dictLookup_insLoc (e : Str × List Place) (loc : Str) :
    ∀ d, dictLookup (insLoc d e) loc =
      if e.1 = loc then some ((dictLookup d loc).getD [] ++ e.2) else dictLookup d loc
  | [] => by
    by_cases h : e.1 = loc <;> simp [insLoc, dictLookup, h]
  | kv :: t => by
    simp only [insLoc]
    by_cases h1 : kv.1 = e.1
    · rw [if_pos h1]
      simp only [dictLookup]
      by_cases h2 : kv.1 = loc
      · rw [if_pos h2, if_pos (h1 ▸ h2), if_pos h2]
        rfl
      · rw [if_neg h2, if_neg (fun hh => h2 (h1 ▸ hh)), if_neg h2]
    · rw [if_neg h1]
      simp only [dictLookup]
      by_cases h2 : kv.1 = loc
      · rw [if_pos h2, if_neg (fun hh => h1 (h2.trans hh.symm)), if_pos h2]
      · rw [if_neg h2, if_neg h2, dictLookup_insLoc e loc t]

theorem dictLookup_foldl (loc : Str) :
    ∀ (rs : List (Str × List Place)) d,
      dictLookup (rs.foldl insLoc d) loc =
        if (dictLookup d loc).isSome ∨ rs.any (fun kv => decide (kv.1 = loc)) then
          some ((dictLookup d loc).getD [] ++ collectLoc rs loc)
        else none
  | [], d => by
    cases h : dictLookup d loc <;> simp [collectLoc, h]
  | e :: t, d => by
    have hfold : (e :: t).foldl insLoc d = t.foldl insLoc (insLoc d e) := rfl
    rw [hfold, dictLookup_foldl loc t (insLoc d e), dictLookup_insLoc e loc d]
    by_cases h1 : e.1 = loc
    · rw [if_pos h1]
      simp [collectLoc, h1, List.append_assoc]
    · rw [if_neg h1]
      have hd : (decide (e.1 = loc)) = false := by simp [h1]
      simp only [collectLoc, if_neg h1, List.any_cons, hd, Bool.false_or]

theorem collectLoc_map (run : Job → List Place) (loc : Str) :
    ∀ jobs : List Job,
      collectLoc (jobs.map fun j => (j.2, tagCategory j.1 (run j))) loc =
        (jobs.filter fun j => decide (j.2 = loc)).flatMap fun j => tagCategory j.1 (run j)
  | [] => rfl
  | j :: t => by
    by_cases h : j.2 = loc <;>
      simp [collectLoc, List.filter_cons, h, collectLoc_map run loc t]

/-- C9 — Concurrent aggregation and category tagging: on the success
path, the orchestrator's merged mapping has an entry for a location
exactly when some job has that location, that entry is the
concatenation, in job order, of the record lists of all jobs sharing
the location, and every record of a job's list carries that job's
category. -/
theorem aggregation_by_location (jobs : List Job) (run : Job → List Place) (loc : Str) :
    dictLookup (mainAggregateOk jobs run) loc =
      (if jobs.any (fun j => decide (j.2 = loc)) then
        some ((jobs.filter fun j => decide (j.2 = loc)).flatMap fun j =>
          tagCategory j.1 (run j))
      else none) ∧
    ∀ cat ps, (tagCategory cat ps).map Place.category = ps.map fun _ => cat := by
  constructor
  · rw [mainAggregateOk, mergeResults, dictLookup_foldl, collectLoc_map]
    have hmap : ∀ js : List Job,
        ((js.map fun j => (j.2, tagCategory j.1 (run j))).any fun kv => decide (kv.1 = loc)) =
          js.any fun j => decide (j.2 = loc) := by
      intro js
      induction js with
      | nil => rfl
      | cons a t ih => simp [ih]
    rw [hmap jobs]
    simp only [dictLookup, Option.isSome_none, Bool.false_eq_true, false_or,
      Option.getD_none, List.nil_append]
  · intro cat ps
    simp only [tagCategory, List.map_map]
    rfl

/-- C10 — Frame property of the hours extraction: the `worktime` value
computed from the `open ⋅ closes` selectors is returned only as the
dynamically added attribute (the second component — not a field of the
`Place` dataclass), the `Place` record itself is unchanged under any
change of the two `opens_at` raw texts, and the declared `weekly_hours`
field is computed from the hours-table rows alone. -/
theorem worktime_is_frame_separate (pd : PageData) (x y : Str) :
    (extract_place { pd with opensAtRaw := x, opensAt2Raw := y }).1 = (extract_place pd).1 ∧
    (extract_place pd).1.weekly_hours = weeklyHoursFrom pd.hoursRows ∧
    (extract_place pd).2 = worktimeOf pd.opensAtRaw pd.opensAt2Raw :=
  ⟨rfl, rfl, rfl⟩
